import Mathlib

/-!
Shallow embedding of the `doot` dotfile manager's reconciliation engine.

Paths are opaque strings; file contents are byte lists.  The filesystem is a
partial map from paths to nodes (regular files or symlinks).  Directories are
implicit: `create_dir_all` calls are no-ops in the model, and directory
existence is carried as explicit booleans where the code tests it.
`std::fs::write` through a pre-existing symlink at the written path (which
would follow the link) is outside the model; writes update the written path.
-/

namespace Doot

abbrev Path := String

abbrev Bytes := List Nat

/-- A filesystem node: a regular file with byte content, or a symlink.
Mirrors what the program distinguishes (`is_file`, `is_symlink`). -/
inductive FsNode
  | file (content : Bytes)
  | symlink (target : Path)
deriving DecidableEq, Repr

/-- The filesystem state: a partial map from paths to nodes. -/
def FS : Type := Path → Option FsNode

/-- `std::fs::read`: follows a symlink to a regular file (one level in the
model — link chains do not occur in the programs under study); fails when the
path is absent or unresolvable. -/
def readNode (fs : FS) (p : Path) : Except String Bytes :=
  match fs p with
  | some (.file c) => .ok c
  | some (.symlink t) =>
    match fs t with
    | some (.file c) => .ok c
    | _ => .error ("Failed to read: " ++ p)
  | none => .error ("Failed to read: " ++ p)

/-- `Path::exists()`: true when the path resolves (through a symlink) to a
file; a dangling symlink does not "exist". -/
def pathExists (fs : FS) (p : Path) : Bool :=
  match fs p with
  | some (.file _) => true
  | some (.symlink t) =>
    match fs t with
    | some (.file _) => true
    | _ => false
  | none => false

/-- `Path::is_symlink()`: a symlink node sits at the path itself. -/
def isSymlink (fs : FS) (p : Path) : Bool :=
  match fs p with
  | some (.symlink _) => true
  | _ => false

/-- `std::fs::write` (`src/store/file.rs` / `link.rs` `write`): parent
directories are created as needed (implicit here); the path now holds a
regular file with the given content. -/
def fsWrite (fs : FS) (p : Path) (c : Bytes) : FS :=
  fun q => if q = p then some (.file c) else fs q

/-- `std::fs::remove_file`. -/
def fsRemove (fs : FS) (p : Path) : FS :=
  fun q => if q = p then none else fs q

/-- The `Store` trait (`src/store/mod.rs`): capability interface over the
filesystem.  Methods that mutate the real filesystem are state transformers
here.  `hash` is the SHA-256 hex digest of `read`; the digest is modeled as
the content itself, since the program only ever consumes digest equality and
treats the digest as collision-free. -/
structure StoreOps where
  read : FS → Path → Except String Bytes
  write : FS → Path → Bytes → FS
  exists' : FS → Path → Bool
  remove : FS → Path → FS
  hash : FS → Path → Except String Bytes
  compare : FS → Path → Path → Except String Bool

/-- Default `Store::hash`: digest of `read` (digest modeled as content). -/
def defaultHash (read : FS → Path → Except String Bytes) (fs : FS) (p : Path) :
    Except String Bytes :=
  read fs p

/-- Default `Store::compare` (`src/store/mod.rs` lines 31-38): `Ok(false)`
when either path does not exist, otherwise equality of the two hashes (either
hash may fail, and the failure propagates). -/
def defaultCompare (ex : FS → Path → Bool) (hash : FS → Path → Except String Bytes)
    (fs : FS) (a b : Path) : Except String Bool :=
  if !ex fs a || !ex fs b then .ok false
  else do
    let ha ← hash fs a
    let hb ← hash fs b
    .ok (ha == hb)

/-- `FileStore` (`src/store/file.rs`): plain filesystem presence; default
hash and compare. -/
def fileStore : StoreOps where
  read := readNode
  write := fsWrite
  exists' := pathExists
  remove := fun fs p => if pathExists fs p then fsRemove fs p else fs
  hash := defaultHash readNode
  compare := defaultCompare pathExists (defaultHash readNode)

/-- `LinkStore` (`src/store/link.rs`): `exists` additionally recognizes
(possibly dangling) symlinks; `hash` is overridden identically to the
default; `compare` is the trait default over this `exists`. -/
def linkStore : StoreOps where
  read := readNode
  write := fsWrite
  exists' := fun fs p => pathExists fs p || isSymlink fs p
  remove := fun fs p => if pathExists fs p || isSymlink fs p then fsRemove fs p else fs
  hash := defaultHash readNode
  compare := defaultCompare (fun fs p => pathExists fs p || isSymlink fs p)
    (defaultHash readNode)

/-- `LinkStore::create_symlink` (`src/store/link.rs` lines 47-77): create
parent directories (implicit), remove any existing file or symlink at the
target, then create a symlink at the target pointing at the source. -/
def createSymlink (source target : Path) (fs : FS) : FS :=
  let fs1 := if pathExists fs target || isSymlink fs target then fsRemove fs target else fs
  fun q => if q = target then some (.symlink source) else fs1 q

/-- `Path::join`: paths are opaque strings, joined with a separator. -/
def pathJoin (base rel : Path) : Path :=
  base ++ "/" ++ rel

/-- `FileStatus` (`src/plan.rs`). -/
inductive FileStatus
  | Same
  | Create
  | Overwrite
deriving DecidableEq, Repr

/-- `FileEntry` (`src/plan.rs`). -/
structure FileEntry where
  relative_path : Path
  source : Path
  destination : Path
  status : FileStatus
deriving DecidableEq, Repr

/-- `GroupPlan` (`src/plan.rs`). -/
structure GroupPlan where
  group_name : String
  entries : List FileEntry
deriving DecidableEq, Repr

/-- `GroupPlan::has_changes`. -/
def GroupPlan.has_changes (g : GroupPlan) : Bool :=
  g.entries.any (fun e => e.status != FileStatus.Same)

/-- `GroupPlan::count_by_status`. -/
def GroupPlan.count_by_status (g : GroupPlan) (status : FileStatus) : Nat :=
  (g.entries.filter (fun e => e.status == status)).length

/-- `Plan` (`src/plan.rs`). -/
structure Plan where
  groups : List GroupPlan
deriving DecidableEq, Repr

/-- `Plan::has_changes`. -/
def Plan.has_changes (p : Plan) : Bool :=
  p.groups.any (fun g => g.has_changes)

/-- `Plan::total_count_by_status`. -/
def Plan.total_count_by_status (p : Plan) (status : FileStatus) : Nat :=
  (p.groups.map (fun g => g.count_by_status status)).sum

/-- `Plan::is_empty`. -/
def Plan.is_empty (p : Plan) : Bool :=
  p.groups.all (fun g => g.entries.isEmpty)

/-- `PlanBuilder::compute_status` (`src/plan.rs` lines 150-158): `Create`
when the destination does not exist, `Same` when `compare` yields `Ok(true)`
(`unwrap_or(false)`), `Overwrite` otherwise. -/
def computeStatus (s : StoreOps) (fs : FS) (source destination : Path) : FileStatus :=
  if !s.exists' fs destination then .Create
  else if ((s.compare fs source destination).toOption.getD false) then .Same
  else .Overwrite

/-! ## Ignore rules (`src/ignore.rs`) and the glob collaborator -/

/-- A compiled token of the external `glob` crate's `Pattern` (shell-style
glob, default `MatchOptions`: wildcards also match the path separator).
`star` covers both `*` and a well-placed `**`, which are interchangeable
under the default options; a character class carries its negation flag and
its ranges (a single member `c` is the range `(c, c)`). -/
inductive GlobToken
  | star
  | anyChar
  | lit (c : Char)
  | charClass (negated : Bool) (items : List (Char × Char))
deriving DecidableEq, Repr

/-- `glob::Pattern::matches`: token-list matching against the character list
of the path.  A `star` consumes an arbitrary prefix: the remaining pattern
must match some suffix of the string (the denotation of the crate's
backtracking loop). -/
def globMatch : List GlobToken → List Char → Bool
  | [], s => s.isEmpty
  | .star :: ts, s => s.tails.any (fun t => globMatch ts t)
  | .anyChar :: ts, s =>
    match s with
    | [] => false
    | _ :: cs => globMatch ts cs
  | .lit a :: ts, s =>
    match s with
    | [] => false
    | c :: cs => a == c && globMatch ts cs
  | .charClass n items :: ts, s =>
    match s with
    | [] => false
    | c :: cs =>
      (if n then !(items.any (fun r => r.1 ≤ c && c ≤ r.2))
       else items.any (fun r => r.1 ≤ c && c ≤ r.2)) && globMatch ts cs

mutual

/-- `glob::Pattern::new`, compilation: `none` is a `PatternError`.  The
boolean argument says whether the position is a component boundary (pattern
start or just after `/`), where a recursive `**` wildcard is legal.  Three
consecutive `*` are invalid; `**` not forming a whole path component is
invalid; an unclosed or empty character class is invalid. -/
def globCompileAux : Bool → List Char → Option (List GlobToken)
  | _, [] => some []
  | _, '*' :: '*' :: '*' :: _ => none
  | b, '*' :: '*' :: rest =>
    if !b then none
    else
      match rest with
      | [] => some [.star]
      | '/' :: rest' => (globCompileAux true rest').map (fun ts => .star :: ts)
      | _ => none
  | _, '*' :: rest => (globCompileAux false rest).map (fun ts => .star :: ts)
  | _, '?' :: rest => (globCompileAux false rest).map (fun ts => .anyChar :: ts)
  | _, '[' :: '!' :: ']' :: rest => globCompileIn true [(']', ']')] rest
  | _, '[' :: '!' :: rest => globCompileIn true [] rest
  | _, '[' :: ']' :: rest => globCompileIn false [(']', ']')] rest
  | _, '[' :: rest => globCompileIn false [] rest
  | _, c :: rest => (globCompileAux (c == '/') rest).map (fun ts => .lit c :: ts)

/-- Inside a character class: accumulate ranges (in reverse) until the
closing `]`; a class that is never closed, or closes with no member, is a
`PatternError`. -/
def globCompileIn (negated : Bool) (acc : List (Char × Char)) :
    List Char → Option (List GlobToken)
  | [] => none
  | ']' :: rest =>
    if acc.isEmpty then none
    else (globCompileAux false rest).map (fun ts => .charClass negated acc.reverse :: ts)
  | a :: '-' :: b :: rest =>
    if b == ']' then
      (globCompileAux false rest).map
        (fun ts => .charClass negated (((('-', '-') :: (a, a) :: acc)).reverse) :: ts)
    else globCompileIn negated ((a, b) :: acc) rest
  | a :: rest => globCompileIn negated ((a, a) :: acc) rest

end

/-- `glob::Pattern::new` on the character list of a pattern string. -/
def globCompile (pattern : List Char) : Option (List GlobToken) :=
  globCompileAux true pattern

/-- `IgnorePattern` (`src/ignore.rs`): a compiled glob plus a negation flag. -/
structure IgnorePattern where
  pattern : List GlobToken
  negated : Bool
deriving DecidableEq, Repr

/-- `IgnoreRules` (`src/ignore.rs`): the ordered pattern list. -/
structure IgnoreRules where
  patterns : List IgnorePattern
deriving DecidableEq, Repr

/-- `pattern.matches(path)` on the relative-path string. -/
def IgnorePattern.matches (p : IgnorePattern) (path : String) : Bool :=
  globMatch p.pattern path.toList

/-- `str::trim`: drop whitespace from both ends. -/
def trimChars (l : List Char) : List Char :=
  ((l.dropWhile Char.isWhitespace).reverse.dropWhile Char.isWhitespace).reverse

/-- `line[..idx]` for `idx = line.find(" #")`: everything from the first
occurrence of a `" #"` inline comment onward is cut; a line with no such
occurrence is kept whole. -/
def stripInline : List Char → List Char
  | [] => []
  | ' ' :: '#' :: _ => []
  | c :: rest => c :: stripInline rest

/-- One loop iteration of `IgnoreRules::parse` (`src/ignore.rs` lines 26-43):
trim the line; skip it when empty or a `#` comment (`none`); strip an inline
`" #"` comment (re-trimming, a no-op when no comment was found); strip a
leading `!` into the negation flag.  Returns the glob text still to compile
and the flag. -/
def processLine (line : List Char) : Option (List Char × Bool) :=
  let line := trimChars line
  match line with
  | [] => none
  | '#' :: _ => none
  | _ =>
    let line := trimChars (stripInline line)
    match line with
    | '!' :: rest => some (rest, true)
    | _ => some (line, false)

/-- The pattern-collecting loop of `IgnoreRules::parse`: the first line whose
glob fails to compile aborts with a `PatternError`. -/
def parseLines : List (List Char) → Except String (List IgnorePattern)
  | [] => .ok []
  | l :: ls =>
    match processLine l with
    | none => parseLines ls
    | some (pstr, negated) =>
      match globCompile pstr with
      | none => .error ("Invalid pattern: " ++ String.mk pstr)
      | some g => (parseLines ls).map (fun ps => ⟨g, negated⟩ :: ps)

/-- `str::lines`: split the character list at newlines.  A trailing newline
produces a final empty line here where Rust produces none, and a `\r` before
the newline survives here — both differences are erased by the per-line
trimming and empty-line skipping of `processLine`. -/
def splitNl : List Char → List (List Char)
  | [] => [[]]
  | '\n' :: rest => [] :: splitNl rest
  | c :: rest =>
    match splitNl rest with
    | l :: ls => (c :: l) :: ls
    | [] => [[c]]

/-- The lines of the rule-file text. -/
def linesOf (content : String) : List (List Char) :=
  splitNl content.toList

/-- `IgnoreRules::parse` (`src/ignore.rs` lines 23-52). -/
def IgnoreRules.parse (content : String) : Except String IgnoreRules :=
  (parseLines (linesOf content)).map (fun ps => ⟨ps⟩)

/-- `IgnoreRules::load` (`src/ignore.rs` lines 14-21).  The argument models
the rule file at the given path: `none` when the file is absent (yielding the
empty rule set, not an error), `some content` otherwise. -/
def IgnoreRules.load (contents : Option String) : Except String IgnoreRules :=
  match contents with
  | none => .ok ⟨[]⟩
  | some content => IgnoreRules.parse content

/-- `IgnoreRules::is_ignored` (`src/ignore.rs` lines 54-64): scan all
patterns in file order; every matching pattern overwrites the running
verdict with `!negated`. -/
def IgnoreRules.is_ignored (r : IgnoreRules) (path : String) : Bool :=
  r.patterns.foldl (fun ignored p => if p.matches path then !p.negated else ignored) false

/-- `IgnoreRules::is_included`. -/
def IgnoreRules.is_included (r : IgnoreRules) (path : String) : Bool :=
  !(r.is_ignored path)

/-! ## Status checking (`src/status.rs`) -/

/-- `GroupStatus` (`src/status.rs`). -/
inductive GroupStatus
  | InSync
  | OutOfSync
  | New
  | Skipped
deriving DecidableEq, Repr

/-- `FileState` (`src/status.rs`). -/
inductive FileState
  | InSync
  | Modified
  | New
deriving DecidableEq, Repr

/-- `FileStatusEntry` (`src/status.rs`). -/
structure FileStatusEntry where
  relative_path : String
  state : FileState
deriving DecidableEq, Repr

/-- `GroupStatusResult` (`src/status.rs`). -/
structure GroupStatusResult where
  name : String
  status : GroupStatus
  files : List FileStatusEntry
deriving DecidableEq, Repr

/-- `PlanStatusResult` (`src/status.rs`). -/
structure PlanStatusResult where
  name : String
  status : GroupStatus
deriving DecidableEq, Repr

/-- `StatusChecker::compute_file_state` (`src/status.rs` lines 144-152):
same shape as `compute_status`, mapped onto `FileState`. -/
def computeFileState (s : StoreOps) (fs : FS) (source destination : Path) : FileState :=
  if !s.exists' fs destination then .New
  else if ((s.compare fs source destination).toOption.getD false) then .InSync
  else .Modified

/-- A regular file met by the directory walk of `check_group`, before any
filtering: its path relative to the group directory, whether it is
conventionally hidden (dotfile), whether it is version-control metadata, and
whether the walker's own custom-ignore handling of the `.dootignore` file
(gitignore semantics, an external `ignore`-crate concern distinct from
`IgnoreRules`) excludes it. -/
structure WalkFile where
  relative_path : String
  hidden : Bool
  vcs : Bool
  custom_ignored : Bool
deriving DecidableEq, Repr

/-- The external `ignore` crate's `WalkBuilder`, modeled at its interface:
with `standard_filters(b)`, a file survives the standard hidden-file and
version-control filters only when `b` is false or it is neither hidden nor
VCS metadata; the custom ignore file is applied regardless.
`check_group` (`src/status.rs` lines 89-92) instantiates `b` with `false`. -/
def walkerYields (standard_filters : Bool) (f : WalkFile) : Bool :=
  (!standard_filters || (!f.hidden && !f.vcs)) && !f.custom_ignored

/-- Lexicographic (byte-wise) string order, `str::cmp`'s `Less`. -/
def listLt : List Char → List Char → Bool
  | [], [] => false
  | [], _ :: _ => true
  | _ :: _, [] => false
  | a :: as, b :: bs => if a < b then true else if b < a then false else listLt as bs

/-- Insertion step of `sort_by(relative_path)` on status entries. -/
def insertByRel (e : FileStatusEntry) : List FileStatusEntry → List FileStatusEntry
  | [] => [e]
  | x :: xs =>
    if listLt x.relative_path.toList e.relative_path.toList then x :: insertByRel e xs
    else e :: x :: xs

/-- `files.sort_by(|a, b| a.relative_path.cmp(&b.relative_path))`. -/
def sortByRel (l : List FileStatusEntry) : List FileStatusEntry :=
  l.foldr insertByRel []

/-- The walk-filter-classify loop body of `check_group` (`src/status.rs`
lines 94-123): keep the files the walker yields (standard filters disabled)
that the `IgnoreRules` include, and classify each against its destination. -/
def checkGroupFiles (s : StoreOps) (fs : FS) (rules : IgnoreRules)
    (group_dir resolved_path : Path) (walk : List WalkFile) : List FileStatusEntry :=
  (walk.filter (fun f => walkerYields false f && rules.is_included f.relative_path)).map
    (fun f =>
      ⟨f.relative_path,
       computeFileState s fs (pathJoin group_dir f.relative_path)
         (pathJoin resolved_path f.relative_path)⟩)

/-- The inputs of `StatusChecker::check_group` for one group that the model
does not derive from `FS`: the outcome of `config.get_resolver` (`none` for
its `Err` case), the current directory, whether the group directory exists
(directories are not part of `FS`), the `.dootignore` contents when that
file is present, and the regular files found under the group directory in
walk order. -/
structure GroupEnv where
  group_name : String
  resolver_lookup : Option String
  cwd : Path
  group_dir_exists : Bool
  dootignore : Option String
  walk : List WalkFile
deriving Repr

/-- `StatusChecker::check_group` (`src/status.rs` lines 58-142).
`resolvePath` models the `resolver::resolve_path` collaborator (shell
expansion), whose failure propagates as an error. -/
def checkGroup (s : StoreOps) (fs : FS) (resolvePath : String → Except String Path)
    (env : GroupEnv) : Except String GroupStatusResult :=
  match env.resolver_lookup with
  | none => .ok ⟨env.group_name, .Skipped, []⟩
  | some raw =>
    match resolvePath raw with
    | .error e => .error e
    | .ok resolved_path =>
      let group_dir := pathJoin env.cwd env.group_name
      if !env.group_dir_exists then .ok ⟨env.group_name, .New, []⟩
      else
        match IgnoreRules.load env.dootignore with
        | .error e => .error e
        | .ok ignore_rules =>
          let files0 := checkGroupFiles s fs ignore_rules group_dir resolved_path env.walk
          let has_changes := files0.any (fun f =>
            f.state == FileState.New || f.state == FileState.Modified)
          let all_new := files0.all (fun f => f.state == FileState.New)
          let files := sortByRel files0
          let status :=
            if files.isEmpty then GroupStatus.New
            else if !has_changes then GroupStatus.InSync
            else if all_new then GroupStatus.New
            else GroupStatus.OutOfSync
          .ok ⟨env.group_name, status, files⟩

/-- The configuration slice `check_plan` consults: the plan table (name to
explicit member list, or null meaning all groups) and the configured group
names (`HashMap`s modeled as association lists). -/
structure PlanConfig where
  plan_table : List (String × Option (List String))
  group_names : List String
deriving Repr

/-- `HashMap::get` on the association-list model. -/
def lookupAssoc {α : Type} : List (String × α) → String → Option α
  | [], _ => none
  | (k, v) :: rest, key => if k = key then some v else lookupAssoc rest key

/-- One match arm of the member loop of `check_plan` (`src/status.rs` lines
184-199), on the found member's status: the running pair is the plan status
so far and the `has_any_group` participation flag. -/
def planStatusStep (acc : GroupStatus × Bool) (st : GroupStatus) : GroupStatus × Bool :=
  match st with
  | .Skipped => acc
  | .OutOfSync => (.OutOfSync, true)
  | .New => (if acc.1 = .OutOfSync then acc.1 else .New, true)
  | .InSync => (acc.1, true)

/-- One iteration of the member loop of `check_plan`: a member name missing
from the result list contributes nothing. -/
def planFoldStep (group_results : List GroupStatusResult) (acc : GroupStatus × Bool)
    (group_name : String) : GroupStatus × Bool :=
  match group_results.find? (fun g => g.name == group_name) with
  | none => acc
  | some group_result => planStatusStep acc group_result.status

/-- `StatusChecker::check_plan` (`src/status.rs` lines 166-211): resolve the
member-group names, then fold their results: `Skipped` members are passed
over, `OutOfSync` wins and sticks, `New` upgrades unless already
`OutOfSync`, `InSync` only marks participation; with no participating member
the plan is `Skipped`. -/
def checkPlan (cfg : PlanConfig) (plan_name : String)
    (group_results : List GroupStatusResult) : PlanStatusResult :=
  let plan_groups := lookupAssoc cfg.plan_table plan_name
  let groups_in_plan : List String :=
    match plan_groups with
    | some (some groups) => groups
    | some none => cfg.group_names
    | none => []
  let folded := groups_in_plan.foldl (planFoldStep group_results) (.InSync, false)
  ⟨plan_name, if folded.2 then folded.1 else .Skipped⟩

/-- The statuses of the member groups of a plan that are present in the
result list, in order — the data `check_plan`'s fold actually consumes. -/
def memberStatuses (cfg : PlanConfig) (plan_name : String)
    (group_results : List GroupStatusResult) : List GroupStatus :=
  let groups_in_plan : List String :=
    match lookupAssoc cfg.plan_table plan_name with
    | some (some groups) => groups
    | some none => cfg.group_names
    | none => []
  groups_in_plan.filterMap (fun n =>
    (group_results.find? (fun g => g.name == n)).map (fun g => g.status))

/-! ## Plan application (`src/executor.rs`)

Terminal output is ignored; the observable behavior is the filesystem state
and the error outcome.  `execute` returns the state reached together with
the first error, if any: the Rust `Result` is an error plus whatever
filesystem mutations had already happened. -/

/-- `Mode` (`src/config.rs`): copy-based or symlink-based materialization. -/
inductive Mode
  | File
  | Link
deriving DecidableEq, Repr

/-- `Executor::execute_entry` (`src/executor.rs` lines 219-238): in `File`
mode read the source and write its content to the destination; in `Link`
mode call `LinkStore::create_symlink` (a static call, independent of the
executor's store). -/
def executeEntry (s : StoreOps) (mode : Mode) (fs : FS) (e : FileEntry) :
    Except String FS :=
  match mode with
  | .File =>
    match s.read fs e.source with
    | .ok content => .ok (s.write fs e.destination content)
    | .error msg => .error msg
  | .Link => .ok (createSymlink e.source e.destination fs)

/-- The inner entry loop of `Executor::execute`: entries in order, `Same`
skipped, first failure aborts with the state reached so far. -/
def executeEntries (s : StoreOps) (mode : Mode) (fs : FS) :
    List FileEntry → FS × Option String
  | [] => (fs, none)
  | e :: es =>
    if e.status == FileStatus.Same then executeEntries s mode fs es
    else
      match executeEntry s mode fs e with
      | .ok fs' => executeEntries s mode fs' es
      | .error msg => (fs, some msg)

/-- The group loop of `Executor::execute` (`src/executor.rs` lines 201-217):
groups in order, change-free groups skipped whole, first failure aborts the
remaining groups. -/
def executeGroups (s : StoreOps) (mode : Mode) (fs : FS) :
    List GroupPlan → FS × Option String
  | [] => (fs, none)
  | g :: gs =>
    if !g.has_changes then executeGroups s mode fs gs
    else
      match executeEntries s mode fs g.entries with
      | (fs', none) => executeGroups s mode fs' gs
      | (fs', some msg) => (fs', some msg)

/-- `Executor::execute`. -/
def Executor.execute (s : StoreOps) (mode : Mode) (fs : FS) (p : Plan) :
    FS × Option String :=
  executeGroups s mode fs p.groups

/-- The non-`Same` entries of a plan, in group order then entry order — the
sequence `apply` is specified to process. -/
def flattenNonSame (p : Plan) : List FileEntry :=
  p.groups.flatMap (fun g => g.entries.filter (fun e => e.status != FileStatus.Same))

/-- Reference sequential processor: run every entry of the list in order,
stopping at the first failure with the state reached before it. -/
def runEntries (s : StoreOps) (mode : Mode) : FS → List FileEntry → FS × Option String
  | fs, [] => (fs, none)
  | fs, e :: es =>
    match executeEntry s mode fs e with
    | .ok fs' => runEntries s mode fs' es
    | .error msg => (fs, some msg)

/-- Verdict of the last matching pattern, the specification's reading of
`is_ignored`: no match ever means not ignored. -/
def lastMatchVerdict (ps : List IgnorePattern) (path : String) : Bool :=
  (((ps.filter (fun p => p.matches path)).getLast?).map (fun p => !p.negated)).getD false

/-! ## Concrete fixtures used by counterexamples and witnesses -/

/-- Filesystem for the `check_group` scenarios: group file `a` has no
counterpart at the target, group file `b` matches its counterpart, and the
hidden group file `.bashrc` has no counterpart. -/
def fsStatus : FS := fun p =>
  if p = "/cwd/g/a" then some (.file [1])
  else if p = "/cwd/g/b" then some (.file [2])
  else if p = "/t/b" then some (.file [2])
  else if p = "/cwd/g/.bashrc" then some (.file [3])
  else none

/-- Identity path expansion: no `~` or variables to expand. -/
def resolveId : String → Except String Path := fun p => .ok p

/-- Group environment whose filtered files classify to `[New, InSync]`. -/
def envMixed : GroupEnv :=
  { group_name := "g"
  , resolver_lookup := some "/t"
  , cwd := "/cwd"
  , group_dir_exists := true
  , dootignore := none
  , walk :=
      [ ⟨"a", false, false, false⟩
      , ⟨"b", false, false, false⟩ ] }

/-- Group environment whose only walked file is a conventionally hidden
dotfile. -/
def envHidden : GroupEnv :=
  { group_name := "g"
  , resolver_lookup := some "/t"
  , cwd := "/cwd"
  , group_dir_exists := true
  , dootignore := none
  , walk := [ ⟨".bashrc", true, false, false⟩ ] }

/-- Filesystem for the executor scenarios: two sources present, one source
missing, and a stale regular file at one destination. -/
def fsExec : FS := fun p =>
  if p = "/m/c.txt" then some (.file [10])
  else if p = "/m/d.txt" then some (.file [11])
  else if p = "/t/c.txt" then some (.file [9])
  else none

/-- A change-free entry of the executor scenarios. -/
def entrySame : FileEntry := ⟨"c.txt", "/m/c.txt", "/t/c.txt", .Same⟩

/-- An entry whose destination is absent: applying it writes `[11]`. -/
def entryCreate : FileEntry := ⟨"d.txt", "/m/d.txt", "/t/d.txt", .Create⟩

/-- An entry whose source is missing: applying it fails on the read. -/
def entryFail : FileEntry := ⟨"x.txt", "/m/x.txt", "/t/x.txt", .Create⟩

/-- An entry overwriting the stale destination file. -/
def entryOver : FileEntry := ⟨"c.txt", "/m/c.txt", "/t/c.txt", .Overwrite⟩

/-- A two-group plan whose second group fails mid-way. -/
def planW : Plan := ⟨[⟨"g1", [entrySame, entryCreate]⟩, ⟨"g2", [entryFail, entryOver]⟩]⟩

/-- A dangling symlink at `/d`: it "exists" for the `LinkStore` but reading
through it fails, so the default `compare` fails. -/
def fsDangling : FS := fun p =>
  if p = "/s" then some (.file [1])
  else if p = "/d" then some (.symlink "/x")
  else none

/-- Two regular files with identical content. -/
def fsSamePair : FS := fun p =>
  if p = "/a" then some (.file [1])
  else if p = "/b" then some (.file [1])
  else none

end Doot

namespace Doot

/-! ## Theorems -/

/-- C1: `compute_status` returns `Create` exactly when the store reports the
destination absent; `Same` exactly when the destination exists and the
store's `compare` returns `Ok(true)`; `Overwrite` in every other case; and
for the concrete copy store over two regular files of arbitrary binary
content, `Same` exactly on byte-identical content and `Overwrite` exactly on
differing content. -/
theorem compute_status_classification (s : StoreOps) (fs : FS) (src dst : Path) :
    (computeStatus s fs src dst = .Create ↔ s.exists' fs dst = false)
    ∧ (computeStatus s fs src dst = .Same ↔
        (s.exists' fs dst = true ∧ s.compare fs src dst = .ok true))
    ∧ (computeStatus s fs src dst = .Overwrite ↔
        (s.exists' fs dst = true ∧ s.compare fs src dst ≠ .ok true))
    ∧ (∀ c1 c2, fs src = some (.file c1) → fs dst = some (.file c2) →
        ((computeStatus fileStore fs src dst = .Same ↔ c1 = c2)
        ∧ (computeStatus fileStore fs src dst = .Overwrite ↔ c1 ≠ c2))) := by
  have base : ∀ (s' : StoreOps),
      (computeStatus s' fs src dst = .Create ↔ s'.exists' fs dst = false)
      ∧ (computeStatus s' fs src dst = .Same ↔
          (s'.exists' fs dst = true ∧ s'.compare fs src dst = .ok true))
      ∧ (computeStatus s' fs src dst = .Overwrite ↔
          (s'.exists' fs dst = true ∧ s'.compare fs src dst ≠ .ok true)) := by
    intro s'
    cases hex : s'.exists' fs dst with
    | false => simp [computeStatus, hex]
    | true =>
      cases hcmp : s'.compare fs src dst with
      | error e => simp [computeStatus, hex, hcmp, Except.toOption]
      | ok b => cases b <;> simp [computeStatus, hex, hcmp, Except.toOption]
  refine ⟨(base s).1, (base s).2.1, (base s).2.2, ?_⟩
  intro c1 c2 h1 h2
  have hex : fileStore.exists' fs dst = true := by
    simp [fileStore, pathExists, h2]
  have hcmp : fileStore.compare fs src dst = .ok (c1 == c2) := by
    simp only [fileStore, defaultCompare, defaultHash, readNode, pathExists, h1, h2]
    rfl
  constructor
  · rw [(base fileStore).2.1]
    by_cases hc : c1 = c2 <;> simp [hex, hcmp, hc]
  · rw [(base fileStore).2.2]
    by_cases hc : c1 = c2 <;> simp [hex, hcmp, hc]

/-- C1 witness: two byte-identical files classify as `Same`. -/
theorem compute_status_classification_witness :
    computeStatus fileStore fsSamePair "/a" "/b" = FileStatus.Same :=
  ((compute_status_classification fileStore fsSamePair "/a" "/b").2.2.2
    [1] [1] rfl rfl).1.mpr rfl

/-- C7: `Plan::has_changes` holds exactly when some entry of some group has
a status other than `Same`; `Plan::is_empty` holds exactly when every group
has no entries; and the two are independent — a non-empty, change-free plan
exists. -/
theorem plan_has_changes_is_empty (p : Plan) :
    (p.has_changes = true ↔ ∃ g ∈ p.groups, ∃ e ∈ g.entries, e.status ≠ FileStatus.Same)
    ∧ (p.is_empty = true ↔ ∀ g ∈ p.groups, g.entries = [])
    ∧ (∃ q : Plan, q.is_empty = false ∧ q.has_changes = false) := by
  refine ⟨?_, ?_, ?_⟩
  · simp [Plan.has_changes, GroupPlan.has_changes, List.any_eq_true]
  · simp [Plan.is_empty, List.all_eq_true, List.isEmpty_iff]
  · exact ⟨⟨[⟨"g", [⟨"a", "s", "d", .Same⟩]⟩]⟩, by decide, by decide⟩

/-- C10: when the destination exists but `compare` fails, the error is
swallowed (`unwrap_or(false)`): the plan builder classifies `Overwrite` and
the status checker classifies `Modified`. -/
theorem compare_error_swallowed (s : StoreOps) (fs : FS) (src dst : Path) (err : String)
    (hex : s.exists' fs dst = true) (hcmp : s.compare fs src dst = .error err) :
    computeStatus s fs src dst = FileStatus.Overwrite
    ∧ computeFileState s fs src dst = FileState.Modified := by
  constructor <;> simp [computeStatus, computeFileState, hex, hcmp, Except.toOption]

/-- C10 witness: a dangling symlink destination under the symlink store
exists but cannot be hashed, so `compare` fails and the classifications are
`Overwrite` and `Modified`. -/
theorem compare_error_swallowed_witness :
    computeStatus linkStore fsDangling "/s" "/d" = FileStatus.Overwrite
    ∧ computeFileState linkStore fsDangling "/s" "/d" = FileState.Modified :=
  compare_error_swallowed linkStore fsDangling "/s" "/d" "Failed to read: /d" rfl rfl

/-- A `star` matches a string when the remaining pattern matches some
suffix. -/
theorem globMatch_star_of_suffix {ts : List GlobToken} {s t : List Char}
    (hsuf : t <:+ s) (hm : globMatch ts t = true) :
    globMatch (GlobToken.star :: ts) s = true := by
  show s.tails.any (fun u => globMatch ts u) = true
  rw [List.any_eq_true]
  exact ⟨t, (List.mem_tails t s).mpr hsuf, hm⟩

/-- The pattern `*` matches every string. -/
theorem globMatch_star_all (s : List Char) : globMatch [GlobToken.star] s = true :=
  globMatch_star_of_suffix (List.nil_suffix (l := s)) rfl

/-- Matching against a string built from an explicit character list. -/
theorem matches_mk (p : IgnorePattern) (l : List Char) :
    p.matches (String.mk l) = globMatch p.pattern l := rfl

/-- The verdict fold of `is_ignored` computes the last matching pattern's
`!negated`. -/
theorem foldl_is_ignored_eq (path : String) (l : List IgnorePattern) :
    l.foldl (fun ignored p => if p.matches path then !p.negated else ignored) false
      = lastMatchVerdict l path := by
  induction l using List.reverseRecOn with
  | nil => rfl
  | append_singleton l p ih =>
    rw [List.foldl_append]
    cases hm : p.matches path with
    | true =>
      simp [lastMatchVerdict, List.filter_append, hm, List.getLast?_concat]
    | false =>
      simp only [List.foldl_cons, List.foldl_nil, hm, Bool.false_eq_true, if_false]
      simpa [lastMatchVerdict, List.filter_append, hm] using ih

/-- C3: `is_ignored` is last-match-wins — it equals the `!negated` of the
last pattern matching the path, and no match means not ignored;
`is_included` is its complement; and on the example rule sets, `*` then
`!*.txt` leaves every `.txt` path included while `*`, `!*.txt`, `*.txt`
leaves every `.txt` path ignored. -/
theorem is_ignored_last_match_wins (r : IgnoreRules) (path : String) :
    (r.is_ignored path = lastMatchVerdict r.patterns path)
    ∧ (r.is_included path = !(r.is_ignored path))
    ∧ (∀ pre : List Char,
        (IgnoreRules.parse "*\n!*.txt").toOption.map
          (fun rr => rr.is_ignored (String.mk (pre ++ ['.', 't', 'x', 't']))) = some false)
    ∧ (∀ pre : List Char,
        (IgnoreRules.parse "*\n!*.txt\n*.txt").toOption.map
          (fun rr => rr.is_ignored (String.mk (pre ++ ['.', 't', 'x', 't']))) = some true) := by
  have hm2 : ∀ pre : List Char,
      globMatch [GlobToken.star, .lit '.', .lit 't', .lit 'x', .lit 't']
        (pre ++ ['.', 't', 'x', 't']) = true := fun pre =>
    globMatch_star_of_suffix (List.suffix_append pre ['.', 't', 'x', 't']) rfl
  refine ⟨foldl_is_ignored_eq path r.patterns, rfl, ?_, ?_⟩
  · intro pre
    have hp : IgnoreRules.parse "*\n!*.txt" =
        .ok ⟨[⟨[.star], false⟩, ⟨[.star, .lit '.', .lit 't', .lit 'x', .lit 't'], true⟩]⟩ := rfl
    rw [hp]
    simp [Except.toOption, IgnoreRules.is_ignored, matches_mk, hm2 pre]
  · intro pre
    have hp : IgnoreRules.parse "*\n!*.txt\n*.txt" =
        .ok ⟨[⟨[.star], false⟩, ⟨[.star, .lit '.', .lit 't', .lit 'x', .lit 't'], true⟩,
              ⟨[.star, .lit '.', .lit 't', .lit 'x', .lit 't'], false⟩]⟩ := rfl
    rw [hp]
    simp [Except.toOption, IgnoreRules.is_ignored, matches_mk, hm2 pre]

/-- The parse loop fails exactly when some line survives skipping and
comment-stripping with glob text that does not compile. -/
theorem parseLines_error_iff (ls : List (List Char)) :
    (∃ e, parseLines ls = .error e) ↔
      ∃ l ∈ ls, ∃ pstr negated,
        processLine l = some (pstr, negated) ∧ globCompile pstr = none := by
  induction ls with
  | nil => simp [parseLines]
  | cons l ls ih =>
    cases hpl : processLine l with
    | none =>
      have step : (∃ e, parseLines (l :: ls) = .error e) ↔ ∃ e, parseLines ls = .error e := by
        simp [parseLines, hpl]
      rw [step, ih]
      constructor
      · rintro ⟨l', hl', rest⟩
        exact ⟨l', List.mem_cons_of_mem _ hl', rest⟩
      · rintro ⟨l', hl', pstr', neg', hpl', hgc'⟩
        rcases List.mem_cons.mp hl' with h | h
        · subst h; rw [hpl] at hpl'; cases hpl'
        · exact ⟨l', h, pstr', neg', hpl', hgc'⟩
    | some pn =>
      obtain ⟨pstr, neg⟩ := pn
      cases hgc : globCompile pstr with
      | none =>
        constructor
        · intro _
          exact ⟨l, List.mem_cons_self l ls, pstr, neg, hpl, hgc⟩
        · intro _
          exact ⟨"Invalid pattern: " ++ String.mk pstr, by simp [parseLines, hpl, hgc]⟩
      | some g =>
        have step : (∃ e, parseLines (l :: ls) = .error e) ↔ ∃ e, parseLines ls = .error e := by
          simp only [parseLines, hpl, hgc]
          cases parseLines ls <;> simp [Except.map]
        rw [step, ih]
        constructor
        · rintro ⟨l', hl', rest⟩
          exact ⟨l', List.mem_cons_of_mem _ hl', rest⟩
        · rintro ⟨l', hl', pstr', neg', hpl', hgc'⟩
          rcases List.mem_cons.mp hl' with h | h
          · subst h
            rw [hpl] at hpl'
            cases Option.some.inj hpl'
            rw [hgc] at hgc'
            cases hgc'
          · exact ⟨l', h, pstr', neg', hpl', hgc'⟩

/-- C9: loading an absent rule file yields the empty rule set (which
includes every path), not an error; loading a present file parses it; and
parsing fails exactly when some non-comment, non-empty line's remaining glob
text is invalid. -/
theorem load_and_parse_contract (content : String) :
    (IgnoreRules.load none = .ok ⟨[]⟩)
    ∧ (∀ path, IgnoreRules.is_included ⟨[]⟩ path = true)
    ∧ (∀ c, IgnoreRules.load (some c) = IgnoreRules.parse c)
    ∧ ((∃ e, IgnoreRules.parse content = .error e) ↔
        ∃ l ∈ linesOf content, ∃ pstr negated,
          processLine l = some (pstr, negated) ∧ globCompile pstr = none) := by
  refine ⟨rfl, fun path => rfl, fun c => rfl, ?_⟩
  rw [← parseLines_error_iff (linesOf content)]
  unfold IgnoreRules.parse
  cases parseLines (linesOf content) <;> simp [Except.map]

/-- Once the running plan status is `OutOfSync` it never changes; the
participation flag records any non-`Skipped` member. -/
theorem foldPS_from_OutOfSync (l : List GroupStatus) :
    ∀ h : Bool, l.foldl planStatusStep (.OutOfSync, h) =
      (.OutOfSync, h || l.any (fun st => st != GroupStatus.Skipped)) := by
  induction l with
  | nil => intro h; simp
  | cons st l ih =>
    intro h
    cases st <;> simp [planStatusStep, ih, Bool.or_assoc]

/-- From a running status of `New`, only an `OutOfSync` member can change
the status. -/
theorem foldPS_from_New (l : List GroupStatus) :
    ∀ h : Bool, l.foldl planStatusStep (.New, h) =
      (if GroupStatus.OutOfSync ∈ l then .OutOfSync else .New,
       h || l.any (fun st => st != GroupStatus.Skipped)) := by
  induction l with
  | nil => intro h; simp
  | cons st l ih =>
    intro h
    cases st <;>
      simp [planStatusStep, ih, foldPS_from_OutOfSync, Bool.or_assoc, List.mem_cons]

/-- From the initial `InSync` status, the fold computes: `OutOfSync` when
present, else `New` when present, else `InSync`; plus the participation
flag. -/
theorem foldPS_from_InSync (l : List GroupStatus) :
    ∀ h : Bool, l.foldl planStatusStep (.InSync, h) =
      (if GroupStatus.OutOfSync ∈ l then .OutOfSync
       else if GroupStatus.New ∈ l then .New
       else .InSync,
       h || l.any (fun st => st != GroupStatus.Skipped)) := by
  induction l with
  | nil => intro h; simp
  | cons st l ih =>
    intro h
    cases st <;>
      simp [planStatusStep, ih, foldPS_from_OutOfSync, foldPS_from_New, Bool.or_assoc,
        List.mem_cons]

/-- The member-name loop consumes exactly the statuses of the member names
found in the result list. -/
theorem foldl_planFoldStep (group_results : List GroupStatusResult) :
    ∀ (names : List String) (acc : GroupStatus × Bool),
      names.foldl (planFoldStep group_results) acc =
        (names.filterMap (fun n =>
          (group_results.find? (fun g => g.name == n)).map (fun g => g.status))).foldl
          planStatusStep acc := by
  intro names
  induction names with
  | nil => intro acc; rfl
  | cons n names ih =>
    intro acc
    cases hf : group_results.find? (fun g => g.name == n) with
    | none => simp [planFoldStep, hf, ih]
    | some gr => simp [planFoldStep, hf, ih]

/-- C4: the plan-level status is `OutOfSync` as soon as some member group's
result is `OutOfSync`, else `New` when some member is `New`, else `InSync`
when some member participated with `InSync`, and `Skipped` when no member
participated (every member `Skipped`, missing, or no members at all). -/
theorem check_plan_aggregation (cfg : PlanConfig) (plan_name : String)
    (group_results : List GroupStatusResult) :
    (checkPlan cfg plan_name group_results).status =
      (if GroupStatus.OutOfSync ∈ memberStatuses cfg plan_name group_results then
        GroupStatus.OutOfSync
       else if GroupStatus.New ∈ memberStatuses cfg plan_name group_results then
        GroupStatus.New
       else if GroupStatus.InSync ∈ memberStatuses cfg plan_name group_results then
        GroupStatus.InSync
       else GroupStatus.Skipped)
    ∧ (checkPlan cfg plan_name group_results).name = plan_name := by
  have main : ∀ sts : List GroupStatus,
      (if (sts.foldl planStatusStep (.InSync, false)).2 = true
       then (sts.foldl planStatusStep (.InSync, false)).1 else GroupStatus.Skipped) =
      (if GroupStatus.OutOfSync ∈ sts then GroupStatus.OutOfSync
       else if GroupStatus.New ∈ sts then GroupStatus.New
       else if GroupStatus.InSync ∈ sts then GroupStatus.InSync
       else GroupStatus.Skipped) := by
    intro sts
    rw [foldPS_from_InSync]
    dsimp only
    rw [Bool.false_or]
    cases hany : sts.any (fun st => st != GroupStatus.Skipped) with
    | false =>
      have hall : ∀ st ∈ sts, st = GroupStatus.Skipped := by
        intro st hst
        by_contra hne
        have hcontra : sts.any (fun st => st != GroupStatus.Skipped) = true :=
          List.any_eq_true.mpr ⟨st, hst, by simpa using hne⟩
        rw [hcontra] at hany
        cases hany
      have h1 : GroupStatus.OutOfSync ∉ sts := fun hmem => by cases hall _ hmem
      have h2 : GroupStatus.New ∉ sts := fun hmem => by cases hall _ hmem
      have h3 : GroupStatus.InSync ∉ sts := fun hmem => by cases hall _ hmem
      simp [h1, h2, h3]
    | true =>
      obtain ⟨st, hst, hne⟩ := List.any_eq_true.mp hany
      by_cases h1 : GroupStatus.OutOfSync ∈ sts
      · simp [h1]
      · by_cases h2 : GroupStatus.New ∈ sts
        · simp [h1, h2]
        · have h3 : GroupStatus.InSync ∈ sts := by
            cases st with
            | InSync => exact hst
            | OutOfSync => exact absurd hst h1
            | New => exact absurd hst h2
            | Skipped => simp at hne
          simp [h1, h2, h3]
  refine ⟨?_, rfl⟩
  simp only [checkPlan, memberStatuses]
  rw [foldl_planFoldStep]
  exact main _

/-- Insertion keeps exactly the old members plus the inserted one. -/
theorem mem_insertByRel (a e : FileStatusEntry) (l : List FileStatusEntry) :
    a ∈ insertByRel e l ↔ a = e ∨ a ∈ l := by
  induction l with
  | nil => simp [insertByRel]
  | cons x xs ih =>
    show a ∈ (if listLt x.relative_path.toList e.relative_path.toList then
        x :: insertByRel e xs else e :: x :: xs) ↔ _
    by_cases hlt : listLt x.relative_path.toList e.relative_path.toList
    · rw [if_pos hlt]
      simp only [List.mem_cons, ih]
      tauto
    · rw [if_neg hlt]
      simp [List.mem_cons]

/-- Sorting by relative path keeps exactly the same members. -/
theorem mem_sortByRel (a : FileStatusEntry) (l : List FileStatusEntry) :
    a ∈ sortByRel l ↔ a ∈ l := by
  induction l with
  | nil => simp [sortByRel]
  | cons x xs ih =>
    show a ∈ insertByRel x (sortByRel xs) ↔ _
    rw [mem_insertByRel, ih, List.mem_cons]

/-- Insertion grows the length by one. -/
theorem length_insertByRel (e : FileStatusEntry) (l : List FileStatusEntry) :
    (insertByRel e l).length = l.length + 1 := by
  induction l with
  | nil => rfl
  | cons x xs ih =>
    show (if listLt x.relative_path.toList e.relative_path.toList then
        x :: insertByRel e xs else e :: x :: xs).length = _
    by_cases hlt : listLt x.relative_path.toList e.relative_path.toList
    · rw [if_pos hlt]
      simp [ih]
    · rw [if_neg hlt]
      simp

/-- Sorting preserves the length. -/
theorem length_sortByRel (l : List FileStatusEntry) :
    (sortByRel l).length = l.length := by
  induction l with
  | nil => rfl
  | cons x xs ih =>
    show (insertByRel x (sortByRel xs)).length = _
    rw [length_insertByRel, ih]
    rfl

/-- Sorting preserves emptiness. -/
theorem isEmpty_sortByRel (l : List FileStatusEntry) :
    (sortByRel l).isEmpty = l.isEmpty := by
  rw [Bool.eq_iff_iff]
  simp only [List.isEmpty_iff_length_eq_zero, length_sortByRel]

/-- Sorting preserves `all`. -/
theorem all_sortByRel (p : FileStatusEntry → Bool) (l : List FileStatusEntry) :
    (sortByRel l).all p = l.all p := by
  rw [Bool.eq_iff_iff]
  simp only [List.all_eq_true]
  constructor <;> intro h a ha
  · exact h a ((mem_sortByRel a l).mpr ha)
  · exact h a ((mem_sortByRel a l).mp ha)

/-- The loop's `has_changes` flag is the negation of "every file `InSync`". -/
theorem any_change_eq_not_all_insync (l : List FileStatusEntry) :
    (l.any fun f => f.state == FileState.New || f.state == FileState.Modified)
      = !(l.all fun f => f.state == FileState.InSync) := by
  induction l with
  | nil => rfl
  | cons f l ih =>
    cases hf : f.state <;> simp [List.any_cons, List.all_cons, hf, ih]

/-- C2 amended: `check_group` reports `Skipped` with no files on a failed
resolver lookup, `New` with no files on an absent group directory, and
otherwise aggregates the filtered classifications as: empty list `New`,
every file `InSync` gives `InSync`, every file `New` gives `New` (the
`all_new` flag requires all files `New`, not merely all non-`InSync` ones),
and `OutOfSync` in every remaining case — in particular any `Modified`, and
also any mix of `New` with `InSync`, forces `OutOfSync`. -/
theorem check_group_aggregation (s : StoreOps) (fs : FS)
    (rp : String → Except String Path) (env : GroupEnv) (r : GroupStatusResult)
    (h : checkGroup s fs rp env = .ok r) :
    r.status = (match env.resolver_lookup with
      | none => GroupStatus.Skipped
      | some _ =>
        if env.group_dir_exists = false then GroupStatus.New
        else if r.files.isEmpty then GroupStatus.New
        else if r.files.all (fun f => f.state == FileState.InSync) then GroupStatus.InSync
        else if r.files.all (fun f => f.state == FileState.New) then GroupStatus.New
        else GroupStatus.OutOfSync)
    ∧ (env.resolver_lookup = none → r.files = [])
    ∧ (env.group_dir_exists = false → r.files = []) := by
  cases hres : env.resolver_lookup with
  | none =>
    simp only [checkGroup, hres] at h
    injection h with h
    subst h
    simp [hres]
  | some raw =>
    simp only [checkGroup, hres] at h
    cases hrp : rp raw with
    | error e => rw [hrp] at h; cases h
    | ok resolved =>
      rw [hrp] at h
      cases hdir : env.group_dir_exists with
      | false =>
        simp only [hdir, Bool.not_false, if_true] at h
        injection h with h
        subst h
        simp [hres, hdir]
      | true =>
        simp only [hdir, Bool.not_true, Bool.false_eq_true, if_false] at h
        cases hload : IgnoreRules.load env.dootignore with
        | error e => rw [hload] at h; cases h
        | ok rules =>
          rw [hload] at h
          injection h with h
          subst h
          refine ⟨?_, by simp [hres], by simp [hdir]⟩
          simp only [hres, hdir]
          dsimp only
          rw [all_sortByRel, all_sortByRel, any_change_eq_not_all_insync, Bool.not_not]
          simp

/-- C2 amended witness: on a group whose filtered files classify to
`[New, InSync]`, the aggregation yields `OutOfSync`. -/
theorem check_group_aggregation_witness :
    (⟨"g", GroupStatus.OutOfSync,
        [⟨"a", FileState.New⟩, ⟨"b", FileState.InSync⟩]⟩ : GroupStatusResult).status =
      (match envMixed.resolver_lookup with
       | none => GroupStatus.Skipped
       | some _ =>
         if envMixed.group_dir_exists = false then GroupStatus.New
         else if ([⟨"a", FileState.New⟩, ⟨"b", FileState.InSync⟩] :
             List FileStatusEntry).isEmpty then GroupStatus.New
         else if ([⟨"a", FileState.New⟩, ⟨"b", FileState.InSync⟩] :
             List FileStatusEntry).all (fun f => f.state == FileState.InSync) then
           GroupStatus.InSync
         else if ([⟨"a", FileState.New⟩, ⟨"b", FileState.InSync⟩] :
             List FileStatusEntry).all (fun f => f.state == FileState.New) then
           GroupStatus.New
         else GroupStatus.OutOfSync) :=
  (check_group_aggregation fileStore fsStatus resolveId envMixed
    ⟨"g", GroupStatus.OutOfSync, [⟨"a", FileState.New⟩, ⟨"b", FileState.InSync⟩]⟩ rfl).1

/-- C2 counterexample: a group with files classified `[New, InSync]` — the
filtered list is non-empty, some file is non-`InSync`, every non-`InSync`
file is `New` and no `Modified` is present — yet `check_group` reports
`OutOfSync`, not the `New` the claim demands. -/
theorem check_group_mixed_counterexample :
    checkGroup fileStore fsStatus resolveId envMixed =
      .ok ⟨"g", GroupStatus.OutOfSync, [⟨"a", FileState.New⟩, ⟨"b", FileState.InSync⟩]⟩
    ∧ (∀ f ∈ [(⟨"a", FileState.New⟩ : FileStatusEntry), ⟨"b", FileState.InSync⟩],
        f.state ≠ FileState.InSync → f.state = FileState.New)
    ∧ (∀ f ∈ [(⟨"a", FileState.New⟩ : FileStatusEntry), ⟨"b", FileState.InSync⟩],
        f.state ≠ FileState.Modified)
    ∧ (∃ f ∈ [(⟨"a", FileState.New⟩ : FileStatusEntry), ⟨"b", FileState.InSync⟩],
        f.state ≠ FileState.InSync)
    ∧ GroupStatus.OutOfSync ≠ GroupStatus.New :=
  ⟨rfl, by decide, by decide, by decide, by decide⟩

/-- With standard filters disabled, the walker keeps everything the custom
ignore file does not exclude. -/
theorem walkerYields_false (f : WalkFile) : walkerYields false f = !f.custom_ignored := by
  simp [walkerYields]

/-- The hidden/VCS attributes play no role in the walk-filter-classify
loop. -/
theorem checkGroupFiles_hidden_irrelevant (s : StoreOps) (fs : FS) (rules : IgnoreRules)
    (group_dir resolved_path : Path) (walk : List WalkFile) :
    checkGroupFiles s fs rules group_dir resolved_path
        (walk.map (fun f => { f with hidden := false, vcs := false }))
      = checkGroupFiles s fs rules group_dir resolved_path walk := by
  induction walk with
  | nil => rfl
  | cons f wfs ih =>
    simp only [checkGroupFiles, List.map_cons, List.filter_cons, walkerYields_false] at ih ⊢
    by_cases hc : (!f.custom_ignored && rules.is_included f.relative_path) = true
    · simp [hc, ih]
    · simp [hc, ih]

/-- C8 amended: `check_group` walks with `standard_filters(false)`, so the
conventional hidden-file and version-control attributes of walked files have
no effect on the result — hidden/VCS files are filtered only by the rule
file, and (as `check_group_hidden_file_counterexample` exhibits) do appear
among the classified files. -/
theorem check_group_ignores_hidden_flags (s : StoreOps) (fs : FS)
    (rp : String → Except String Path) (env : GroupEnv) :
    checkGroup s fs rp
        { env with walk := env.walk.map (fun f => { f with hidden := false, vcs := false }) }
      = checkGroup s fs rp env := by
  cases hres : env.resolver_lookup with
  | none => simp [checkGroup, hres]
  | some raw =>
    cases hrp : rp raw with
    | error e => simp [checkGroup, hres, hrp]
    | ok resolved =>
      cases hdir : env.group_dir_exists with
      | false => simp [checkGroup, hres, hrp, hdir]
      | true =>
        cases hload : IgnoreRules.load env.dootignore with
        | error e => simp [checkGroup, hres, hrp, hdir, hload]
        | ok rules =>
          simp [checkGroup, hres, hrp, hdir, hload, checkGroupFiles_hidden_irrelevant]

/-- C8 counterexample: with the rule file absent, a conventionally hidden
dotfile (`hidden = true`) walked in the group directory appears among the
classified files of the group's status result. -/
theorem check_group_hidden_file_counterexample :
    envHidden.walk = [⟨".bashrc", true, false, false⟩]
    ∧ checkGroup fileStore fsStatus resolveId envHidden =
        .ok ⟨"g", GroupStatus.New, [⟨".bashrc", FileState.New⟩]⟩
    ∧ ((⟨".bashrc", FileState.New⟩ : FileStatusEntry) ∈
        [(⟨".bashrc", FileState.New⟩ : FileStatusEntry)]) :=
  ⟨rfl, rfl, by decide⟩

/-- `bne` on statuses, spelled out for rewriting. -/
theorem status_bne_eq (e : FileEntry) :
    (e.status != FileStatus.Same) = !(e.status == FileStatus.Same) := rfl

/-- The entry loop with its `Same`-skip equals the plain sequential run of
the non-`Same` entries. -/
theorem executeEntries_eq_runEntries (s : StoreOps) (m : Mode) (fs : FS)
    (es : List FileEntry) :
    executeEntries s m fs es =
      runEntries s m fs (es.filter (fun e => e.status != FileStatus.Same)) := by
  induction es generalizing fs with
  | nil => rfl
  | cons e es ih =>
    cases hs : (e.status == FileStatus.Same) with
    | true =>
      simp only [executeEntries, hs, if_true, List.filter_cons, status_bne_eq,
        Bool.not_true, Bool.false_eq_true, if_false]
      exact ih fs
    | false =>
      simp only [executeEntries, hs, Bool.false_eq_true, if_false, List.filter_cons,
        status_bne_eq, Bool.not_false, if_true, runEntries]
      cases executeEntry s m fs e with
      | ok fs' => exact ih fs'
      | error msg => rfl

/-- Sequential processing of a concatenation: the second part runs only when
the first succeeded. -/
theorem runEntries_append (s : StoreOps) (m : Mode) (fs : FS)
    (l1 l2 : List FileEntry) :
    runEntries s m fs (l1 ++ l2) =
      (match runEntries s m fs l1 with
       | (fs1, none) => runEntries s m fs1 l2
       | (fs1, some msg) => (fs1, some msg)) := by
  induction l1 generalizing fs with
  | nil => rfl
  | cons e l1 ih =>
    simp only [List.cons_append, runEntries]
    cases executeEntry s m fs e with
    | ok fs' => exact ih fs'
    | error msg => rfl

/-- A change-free group contributes no entries. -/
theorem filter_nonSame_of_no_changes (g : GroupPlan) (h : g.has_changes = false) :
    g.entries.filter (fun e => e.status != FileStatus.Same) = [] := by
  rw [List.filter_eq_nil_iff]
  intro e he
  have := List.any_eq_false.mp h e he
  simpa using this

/-- `Executor::execute` runs exactly the non-`Same` entries of the plan, in
group order then entry order. -/
theorem execute_eq_runEntries (s : StoreOps) (m : Mode) (fs : FS) (gs : List GroupPlan) :
    executeGroups s m fs gs = runEntries s m fs (flattenNonSame ⟨gs⟩) := by
  induction gs generalizing fs with
  | nil => rfl
  | cons g gs ih =>
    have hflat : flattenNonSame ⟨g :: gs⟩ =
        g.entries.filter (fun e => e.status != FileStatus.Same) ++ flattenNonSame ⟨gs⟩ := by
      simp [flattenNonSame]
    rw [hflat]
    cases hch : g.has_changes with
    | false =>
      rw [filter_nonSame_of_no_changes g hch, List.nil_append]
      simp only [executeGroups, hch, Bool.not_false, if_true]
      exact ih fs
    | true =>
      simp only [executeGroups, hch, Bool.not_true, Bool.false_eq_true, if_false]
      rw [executeEntries_eq_runEntries, runEntries_append]
      cases hrun : runEntries s m fs (g.entries.filter (fun e => e.status != FileStatus.Same)) with
      | mk fs' msg =>
        cases msg with
        | none => exact ih fs'
        | some m' => rfl

/-- In link mode the sequential run is the pure fold of
`create_symlink` over the entries, and it never fails. -/
theorem runEntries_link (s : StoreOps) (fs : FS) (l : List FileEntry) :
    runEntries s .Link fs l =
      (l.foldl (fun a e => createSymlink e.source e.destination a) fs, none) := by
  induction l generalizing fs with
  | nil => rfl
  | cons e l ih =>
    simp only [runEntries, executeEntry, List.foldl_cons]
    exact ih _

/-- C5: in link mode, applying a plan is exactly the fold of the
symlink-creation operation over the non-`Same` entries — independent of the
store's `write` (the whole store is irrelevant), and never failing; a single
entry is materialized by `create_symlink`; and `create_symlink` leaves the
destination holding a symlink to the source, whatever was there before. -/
theorem link_mode_apply_symlinks (s : StoreOps) (fs : FS) (p : Plan) (e : FileEntry) :
    (Executor.execute s .Link fs p =
      ((flattenNonSame p).foldl (fun a x => createSymlink x.source x.destination a) fs, none))
    ∧ (executeEntry s .Link fs e = .ok (createSymlink e.source e.destination fs))
    ∧ ((createSymlink e.source e.destination fs) e.destination = some (.symlink e.source)) := by
  refine ⟨?_, rfl, ?_⟩
  · show executeGroups s .Link fs p.groups = _
    rw [execute_eq_runEntries, runEntries_link]
  · simp [createSymlink]

/-- Paths that are no processed entry's destination are untouched by the
copy-mode run. -/
theorem runEntries_untouched (fs : FS) (l : List FileEntry) (q : Path)
    (hq : ∀ e ∈ l, e.destination ≠ q) :
    (runEntries fileStore .File fs l).1 q = fs q := by
  induction l generalizing fs with
  | nil => rfl
  | cons e l ih =>
    simp only [runEntries, executeEntry]
    cases hr : StoreOps.read fileStore fs e.source with
    | error msg => rfl
    | ok c =>
      have hstep : StoreOps.write fileStore fs e.destination c q = fs q := by
        have hne : q ≠ e.destination := fun heq =>
          hq e (List.mem_cons_self e l) heq.symm
        simp [fileStore, fsWrite, hne]
      rw [ih (StoreOps.write fileStore fs e.destination c)
        (fun e' he' => hq e' (List.mem_cons_of_mem e he')), hstep]

/-- C6: applying a plan processes exactly the non-`Same` entries, strictly
sequentially in group order then entry order; in copy mode each entry writes
the source's content to its destination; the first failure aborts every
remaining entry and group, keeping the state already reached (no rollback);
and any path that is not the destination of a processed (non-`Same`) entry —
in particular the destination of a `Same`-only entry — is never written. -/
theorem apply_fail_fast_order (s : StoreOps) (m : Mode) (fs : FS) (p : Plan) :
    (Executor.execute s m fs p = runEntries s m fs (flattenNonSame p))
    ∧ (∀ l1 e l2 fs1 msg, runEntries s m fs l1 = (fs1, none) →
        executeEntry s m fs1 e = .error msg →
        runEntries s m fs (l1 ++ e :: l2) = (fs1, some msg))
    ∧ (∀ e c, StoreOps.read fileStore fs e.source = .ok c →
        executeEntry fileStore .File fs e = .ok (StoreOps.write fileStore fs e.destination c))
    ∧ (∀ q, (∀ e ∈ flattenNonSame p, e.destination ≠ q) →
        (Executor.execute fileStore .File fs p).1 q = fs q) := by
  refine ⟨?_, ?_, ?_, ?_⟩
  · show executeGroups s m fs p.groups = _
    exact execute_eq_runEntries s m fs p.groups
  · intro l1 e l2 fs1 msg h1 h2
    rw [runEntries_append, h1]
    simp only [runEntries, h2]
  · intro e c h
    simp [executeEntry, h]
  · intro q hq
    show (executeGroups fileStore .File fs p.groups).1 q = fs q
    rw [execute_eq_runEntries]
    exact runEntries_untouched fs (flattenNonSame p) q hq

/-- C6 witness: on a concrete plan whose second group's first entry has a
missing source, apply runs the non-`Same` entries in order, writes the first
entry's content, stops at the failing entry keeping the already-written
state, and leaves unrelated paths untouched. -/
theorem apply_fail_fast_order_witness :
    (runEntries fileStore .File fsExec ([entryCreate] ++ entryFail :: [entryOver]) =
      (StoreOps.write fileStore fsExec "/t/d.txt" [11], some "Failed to read: /m/x.txt"))
    ∧ (executeEntry fileStore .File fsExec entryCreate =
        .ok (StoreOps.write fileStore fsExec "/t/d.txt" [11]))
    ∧ ((Executor.execute fileStore .File fsExec planW).1 "/t/zzz" = fsExec "/t/zzz") :=
  ⟨(apply_fail_fast_order fileStore .File fsExec planW).2.1
      [entryCreate] entryFail [entryOver]
      (StoreOps.write fileStore fsExec "/t/d.txt" [11]) "Failed to read: /m/x.txt" rfl rfl,
   (apply_fail_fast_order fileStore .File fsExec planW).2.2.1 entryCreate [11] rfl,
   (apply_fail_fast_order fileStore .File fsExec planW).2.2.2 "/t/zzz" (by decide)⟩

end Doot
